import Mathlib

/-!
# Verification of the visual-diff run lifecycle core

Shallow embedding of the run registry (`src/worker/db.ts`), the workflow
orchestrator (`src/worker/workflow.ts`), the queue-consumer orchestrator
(`src/worker/queue.ts`, `src/worker/sandbox.ts`) and the log sanitizer
(`src/worker/cleanup.ts` / `src/worker/sandbox.ts`), together with proofs
of the lifecycle, cancellation and sanitization properties.

Modelling conventions:
* The D1 `runs` table is a list of rows, newest insertion first, so SQL
  `ORDER BY created_at DESC ... LIMIT 1` is `List.find?` and `INSERT`
  is cons.
* Each fallible external call (sandbox destroy, status update, ...) is
  driven by an explicit outcome oracle; `try { } catch { /* best effort */ }`
  discards the oracle outcome, which is how "failure swallowed" is stated.
* Effects on collaborators (sandbox destroys, GitHub comments, R2 uploads)
  are collected into explicit traces so the theorems can talk about which
  calls were attempted.
-/

namespace VisualDiff

/-- Run status enum from `src/worker/run-types.ts`:
`"queued" | "running" | "completed" | "cancelled" | "failed"`. -/
inductive RunStatus where
  | queued
  | running
  | completed
  | cancelled
  | failed
deriving DecidableEq, Repr

/-- `status IN ('queued', 'running')` — the statuses the registry treats as
active (`registerRun`'s SELECT and `isRunActive`). -/
def RunStatus.isActive : RunStatus → Bool
  | .queued => true
  | .running => true
  | _ => false

/-- `status NOT IN ('cancelled', 'completed', 'failed')` — the terminal-state
guard in `updateRunStatus`'s UPDATE. -/
def RunStatus.isTerminal : RunStatus → Bool
  | .cancelled => true
  | .completed => true
  | .failed => true
  | _ => false

/-- One row of the `runs` table (`Run` in `src/worker/run-types.ts`;
timestamps are modelled positionally, see `DB`). -/
structure RunRow where
  id : String
  owner : String
  repo : String
  prNumber : Nat
  commitSha : String
  status : RunStatus
deriving DecidableEq, Repr

/-- The `runs` table. Rows are kept newest-creation first: `INSERT` conses a
row at the head, so `ORDER BY created_at DESC` order is list order. -/
abbrev DB := List RunRow

/-- The (owner, repo, pr_number) key used by the supersession protocol. -/
structure PRKey where
  owner : String
  repo : String
  prNumber : Nat
deriving DecidableEq, Repr

/-- `owner = ? AND repo = ? AND pr_number = ?`. -/
def RunRow.hasKey (r : RunRow) (k : PRKey) : Bool :=
  r.owner == k.owner && r.repo == k.repo && r.prNumber == k.prNumber

/-- The SELECT inside `registerRun` (db.ts:21-28): most recent run for the
key with status in ('queued','running'), newest first, LIMIT 1. -/
def selectActive (db : DB) (k : PRKey) : Option RunRow :=
  db.find? (fun r => r.hasKey k && r.status.isActive)

/-- `UPDATE runs SET status = 'cancelled' WHERE id = ?` (db.ts:34-38). -/
def cancelById (db : DB) (id : String) : DB :=
  db.map (fun r => if r.id == id then { r with status := .cancelled } else r)

/-- `UPDATE runs SET status = 'failed' WHERE id = ?` (db.ts:119-123, killRun's
unconditional override). -/
def failById (db : DB) (id : String) : DB :=
  db.map (fun r => if r.id == id then { r with status := .failed } else r)

/-- `INSERT INTO runs (id, owner, repo, pr_number, commit_sha, status)
VALUES (?, ?, ?, ?, ?, 'queued')` (db.ts:55-60). -/
def insertQueued (db : DB) (k : PRKey) (id sha : String) : DB :=
  { id := id, owner := k.owner, repo := k.repo, prNumber := k.prNumber,
    commitSha := sha, status := RunStatus.queued } :: db

/-- Oracle giving the outcome of `sandbox.destroy()` for a given sandbox id:
`true` means the call throws (the sandbox may already be gone). -/
abbrev DestroyOracle := String → Bool

/-- `try { await sandbox.destroy() } catch { /* may already be gone */ }` —
the outcome is computed and discarded, so a failing destroy changes nothing
for the caller. -/
def bestEffortDestroy (o : DestroyOracle) (id : String) : Unit :=
  let _outcome := o id
  ()

/-- Result of `registerRun`: the new table state, the superseded run returned
to the caller (db.ts:62), and the sandbox ids on which `destroy()` was
attempted. -/
structure RegisterResult where
  db : DB
  cancelledRun : Option RunRow
  destroyedIds : List String
deriving DecidableEq, Repr

/-- `registerRun` (db.ts:10-63), run atomically (no interleaving): find the
most recent active run for the key; if found, mark it cancelled and
best-effort destroy its sandbox; then insert the new run as queued. -/
def registerRun (o : DestroyOracle) (db : DB) (k : PRKey)
    (id sha : String) : RegisterResult :=
  match selectActive db k with
  | some existing =>
      let _ := bestEffortDestroy o existing.id
      { db := insertQueued (cancelById db existing.id) k id sha
        cancelledRun := some existing
        destroyedIds := [existing.id] }
  | none =>
      { db := insertQueued db k id sha
        cancelledRun := none
        destroyedIds := [] }

/-- `getRun`-style lookup: status of the first row with the given id
(`SELECT status FROM runs WHERE id = ?` + `.first()`). -/
def statusOf (db : DB) (id : String) : Option RunStatus :=
  (db.find? (fun r => r.id == id)).map (fun r => r.status)

/-- `isRunActive` (db.ts:78-87): `row?.status === "queued" ||
row?.status === "running"`. -/
def isRunActive (db : DB) (id : String) : Bool :=
  match statusOf db id with
  | some s => s.isActive
  | none => false

/-- `updateRunStatus` (db.ts:93-105): a single conditional UPDATE,
`SET status = ? WHERE id = ? AND status NOT IN
('cancelled','completed','failed')`. -/
def updateRunStatus (db : DB) (id : String) (s : RunStatus) : DB :=
  db.map (fun r =>
    if r.id == id && !r.status.isTerminal then { r with status := s } else r)

/-- Result of `killRun`: new state, the boolean the function returns, and the
sandbox ids on which `destroy()` was attempted. -/
structure KillResult where
  db : DB
  found : Bool
  destroyedIds : List String
deriving DecidableEq, Repr

/-- `killRun` (db.ts:111-135): look the run up; if absent return false;
otherwise force status to 'failed' (even if already terminal), best-effort
destroy the sandbox, return true. -/
def killRun (o : DestroyOracle) (db : DB) (id : String) : KillResult :=
  match db.find? (fun r => r.id == id) with
  | none => { db := db, found := false, destroyedIds := [] }
  | some _ =>
      let _ := bestEffortDestroy o id
      { db := failById db id, found := true, destroyedIds := [id] }

/-- All runs for a key that are currently active — the set the supersession
invariant bounds. -/
def activeFor (db : DB) (k : PRKey) : List RunRow :=
  db.filter (fun r => r.hasKey k && r.status.isActive)

/-- Primary keys of the table, in row order. -/
def idsOf (db : DB) : List String :=
  db.map (fun r => r.id)

-- ─── Registry helper lemmas ──────────────────────────────────────────────────

theorem selectActive_eq_head? (db : DB) (k : PRKey) :
    selectActive db k = (activeFor db k).head? := by
  induction db with
  | nil => rfl
  | cons r t ih =>
      unfold selectActive activeFor at ih ⊢
      rw [List.find?_cons, List.filter_cons]
      cases h : (r.hasKey k && r.status.isActive) with
      | true => simp
      | false => simp only [List.head?]; exact ih

theorem head?_of_length_le_one {α : Type} {l : List α} {a : α}
    (hlen : l.length ≤ 1) (hh : l.head? = some a) : l = [a] := by
  cases l with
  | nil => simp at hh
  | cons x t =>
      cases t with
      | nil => simp at hh; simp [hh]
      | cons y u => simp at hlen

theorem find?_map_of_id (db : DB) (g : RunRow → RunRow)
    (hid : ∀ r, (g r).id = r.id) (x : String) :
    (db.map g).find? (fun r => r.id == x)
      = (db.find? (fun r => r.id == x)).map g := by
  induction db with
  | nil => rfl
  | cons r t ih =>
      simp only [List.map, List.find?]
      rw [hid r]
      by_cases h : (r.id == x) = true
      · simp [h]
      · simp only [Bool.not_eq_true] at h
        simp [h, ih]

theorem statusOf_map (db : DB) (g : RunRow → RunRow)
    (hid : ∀ r, (g r).id = r.id) (x : String) :
    statusOf (db.map g) x
      = (db.find? (fun r => r.id == x)).map (fun r => (g r).status) := by
  simp only [statusOf, find?_map_of_id db g hid x, Option.map_map]
  rfl

theorem cancelById_id (e : String) (r : RunRow) :
    (if r.id == e then { r with status := RunStatus.cancelled } else r).id
      = r.id := by
  split <;> rfl

theorem failById_id (e : String) (r : RunRow) :
    (if r.id == e then { r with status := RunStatus.failed } else r).id
      = r.id := by
  split <;> rfl

theorem statusOf_cancelById (db : DB) (e x : String) :
    statusOf (cancelById db e) x
      = (statusOf db x).map
          (fun s => if x = e then RunStatus.cancelled else s) := by
  unfold cancelById
  rw [statusOf_map db _ (cancelById_id e) x]
  unfold statusOf
  cases hf : db.find? (fun r => r.id == x) with
  | none => rfl
  | some r =>
      have hr := List.find?_some hf
      have hrx : r.id = x := by simpa using hr
      simp only [Option.map_some']
      by_cases hxe : x = e
      · have hb : (r.id == e) = true := by rw [hrx]; simpa using hxe
        simp [hb, hxe]
      · have hb : (r.id == e) = false := by rw [hrx]; simpa using hxe
        simp [hb, hxe]

theorem statusOf_failById (db : DB) (e x : String) :
    statusOf (failById db e) x
      = (statusOf db x).map
          (fun s => if x = e then RunStatus.failed else s) := by
  unfold failById
  rw [statusOf_map db _ (failById_id e) x]
  unfold statusOf
  cases hf : db.find? (fun r => r.id == x) with
  | none => rfl
  | some r =>
      have hr := List.find?_some hf
      have hrx : r.id = x := by simpa using hr
      simp only [Option.map_some']
      by_cases hxe : x = e
      · have hb : (r.id == e) = true := by rw [hrx]; simpa using hxe
        simp [hb, hxe]
      · have hb : (r.id == e) = false := by rw [hrx]; simpa using hxe
        simp [hb, hxe]

theorem statusOf_insertQueued_self (db : DB) (k : PRKey) (id sha : String) :
    statusOf (insertQueued db k id sha) id = some RunStatus.queued := by
  simp [statusOf, insertQueued, List.find?]

theorem statusOf_insertQueued_ne (db : DB) (k : PRKey) (id sha x : String)
    (h : x ≠ id) :
    statusOf (insertQueued db k id sha) x = statusOf db x := by
  have : (id == x) = false := by
    simp [beq_iff_eq]
    exact fun he => h he.symm
  simp [statusOf, insertQueued, List.find?, this]

theorem hasKey_mk (k : PRKey) (id sha : String) (s : RunStatus) :
    RunRow.hasKey
      { id := id, owner := k.owner, repo := k.repo, prNumber := k.prNumber,
        commitSha := sha, status := s } k = true := by
  simp [RunRow.hasKey]

theorem activeFor_insertQueued (db : DB) (k : PRKey) (id sha : String) :
    activeFor (insertQueued db k id sha) k
      = { id := id, owner := k.owner, repo := k.repo, prNumber := k.prNumber,
          commitSha := sha, status := RunStatus.queued } :: activeFor db k := by
  simp [activeFor, insertQueued, List.filter, hasKey_mk, RunStatus.isActive]

theorem cancelById_of_ne (e : String) (r : RunRow) (h : (r.id == e) = false) :
    (if r.id == e then { r with status := RunStatus.cancelled } else r) = r := by
  simp [h]

theorem activeFor_cancelById (db : DB) (k : PRKey) (e : String) :
    activeFor (cancelById db e) k
      = (activeFor db k).filter (fun r => !(r.id == e)) := by
  unfold activeFor cancelById
  rw [List.filter_map, List.filter_filter]
  have hpred :
      ((fun r : RunRow => r.hasKey k && r.status.isActive) ∘
        (fun r => if r.id == e then { r with status := RunStatus.cancelled }
                  else r))
      = fun r : RunRow => (!(r.id == e)) && (r.hasKey k && r.status.isActive)
      := by
    funext r
    simp only [Function.comp_apply]
    by_cases h : r.id = e
    · have hb : (r.id == e) = true := by simpa using h
      simp [hb, RunStatus.isActive]
    · have hb : (r.id == e) = false := by simpa using h
      simp [hb]
  rw [hpred]
  have hmap :
      List.map
        (fun r : RunRow => if r.id == e then { r with status := RunStatus.cancelled } else r)
        (List.filter (fun r => (!(r.id == e)) && (r.hasKey k && r.status.isActive)) db)
      = List.map id
        (List.filter (fun r => (!(r.id == e)) && (r.hasKey k && r.status.isActive)) db)
      := by
    apply List.map_congr_left
    intro a ha
    have hmem := (List.mem_filter.mp ha).2
    have hne : (a.id == e) = false := by
      cases h : (a.id == e) with
      | false => rfl
      | true => rw [h] at hmem; simp at hmem
    have hne' : ¬ a.id = e := by simpa using hne
    simp [hne']
  rw [hmap, List.map_id]

theorem idsOf_cancelById (db : DB) (e : String) :
    idsOf (cancelById db e) = idsOf db := by
  unfold idsOf cancelById
  rw [List.map_map]
  congr 1
  funext r
  show (if r.id == e then { r with status := RunStatus.cancelled } else r).id
      = r.id
  split <;> rfl

theorem idsOf_registerRun (o : DestroyOracle) (db : DB) (k : PRKey)
    (id sha : String) :
    idsOf (registerRun o db k id sha).db = id :: idsOf db := by
  unfold registerRun
  cases hsel : selectActive db k with
  | none => rfl
  | some e =>
      show idsOf (insertQueued (cancelById db e.id) k id sha) = id :: idsOf db
      show id :: idsOf (cancelById db e.id) = id :: idsOf db
      rw [idsOf_cancelById]

theorem statusOf_isSome_of_mem {db : DB} {r : RunRow} (h : r ∈ db) :
    (statusOf db r.id).isSome := by
  have : (db.find? (fun row => row.id == r.id)).isSome := by
    rw [List.find?_isSome]
    exact ⟨r, h, by simp⟩
  simpa [statusOf] using this

theorem mem_id_of_statusOf_some {db : DB} {x : String} {st : RunStatus}
    (h : statusOf db x = some st) : ∃ r ∈ db, r.id = x := by
  unfold statusOf at h
  cases hf : db.find? (fun r => r.id == x) with
  | none => rw [hf] at h; simp at h
  | some r =>
      refine ⟨r, List.mem_of_find?_eq_some hf, ?_⟩
      have := List.find?_some hf
      simpa using this

theorem isActive_of_isTerminal_false {s : RunStatus}
    (h : s.isTerminal = true) : s.isActive = false := by
  cases s <;> simp_all [RunStatus.isTerminal, RunStatus.isActive]

/-- The run row inserted by `registerRun`. -/
def newQueuedRow (k : PRKey) (id sha : String) : RunRow :=
  { id := id, owner := k.owner, repo := k.repo, prNumber := k.prNumber,
    commitSha := sha, status := RunStatus.queued }

theorem activeFor_registerRun (o : DestroyOracle) (db : DB) (k : PRKey)
    (id sha : String) (hinv : (activeFor db k).length ≤ 1) :
    activeFor (registerRun o db k id sha).db k = [newQueuedRow k id sha] := by
  unfold registerRun
  cases hsel : selectActive db k with
  | none =>
      have h0 : activeFor db k = [] := by
        rw [selectActive_eq_head?] at hsel
        exact List.head?_eq_none_iff.mp hsel
      show activeFor (insertQueued db k id sha) k = _
      rw [activeFor_insertQueued, h0]
      rfl
  | some e =>
      have he : activeFor db k = [e] := by
        rw [selectActive_eq_head?] at hsel
        exact head?_of_length_le_one hinv hsel
      show activeFor (insertQueued (cancelById db e.id) k id sha) k = _
      rw [activeFor_insertQueued, activeFor_cancelById, he]
      simp [newQueuedRow]

theorem statusOf_registerRun_self (o : DestroyOracle) (db : DB) (k : PRKey)
    (id sha : String) :
    statusOf (registerRun o db k id sha).db id = some RunStatus.queued := by
  unfold registerRun
  cases hsel : selectActive db k with
  | none => exact statusOf_insertQueued_self db k id sha
  | some e => exact statusOf_insertQueued_self (cancelById db e.id) k id sha

theorem registerRun_cancels_prior (o : DestroyOracle) (db : DB) (k : PRKey)
    (id sha : String)
    (hfresh : ∀ row ∈ db, row.id ≠ id)
    (hinv : (activeFor db k).length ≤ 1) :
    ∀ row ∈ activeFor db k,
      statusOf (registerRun o db k id sha).db row.id
        = some RunStatus.cancelled := by
  intro row hrow
  unfold registerRun
  cases hsel : selectActive db k with
  | none =>
      have h0 : activeFor db k = [] := by
        rw [selectActive_eq_head?] at hsel
        exact List.head?_eq_none_iff.mp hsel
      rw [h0] at hrow
      simp at hrow
  | some e =>
      have he : activeFor db k = [e] := by
        rw [selectActive_eq_head?] at hsel
        exact head?_of_length_le_one hinv hsel
      rw [he] at hrow
      have hre : row = e := by simpa using hrow
      subst hre
      have hedb : row ∈ db := by
        have : row ∈ activeFor db k := by rw [he]; simp
        exact (List.mem_filter.mp this).1
      have hne : row.id ≠ id := hfresh row hedb
      show statusOf (insertQueued (cancelById db row.id) k id sha) row.id = _
      rw [statusOf_insertQueued_ne _ _ _ _ _ hne, statusOf_cancelById]
      obtain ⟨s, hs⟩ := Option.isSome_iff_exists.mp (statusOf_isSome_of_mem hedb)
      rw [hs]
      simp

theorem registerRun_effects (o : DestroyOracle) (db : DB) (k : PRKey)
    (id sha : String) (hinv : (activeFor db k).length ≤ 1) :
    (registerRun o db k id sha).destroyedIds
        = (activeFor db k).map (fun r => r.id)
    ∧ (registerRun o db k id sha).cancelledRun = (activeFor db k).head? := by
  unfold registerRun
  cases hsel : selectActive db k with
  | none =>
      have h0 : activeFor db k = [] := by
        rw [selectActive_eq_head?] at hsel
        exact List.head?_eq_none_iff.mp hsel
      rw [h0]
      exact ⟨rfl, rfl⟩
  | some e =>
      have he : activeFor db k = [e] := by
        rw [selectActive_eq_head?] at hsel
        exact head?_of_length_le_one hinv hsel
      rw [he]
      exact ⟨rfl, rfl⟩

theorem registerRun_preserves_cancelled (o : DestroyOracle) (db : DB)
    (k : PRKey) (id sha : String)
    (hfresh : ∀ row ∈ db, row.id ≠ id) :
    ∀ x, statusOf db x = some RunStatus.cancelled →
      statusOf (registerRun o db k id sha).db x
        = some RunStatus.cancelled := by
  intro x hx
  have hxid : x ≠ id := by
    obtain ⟨r, hrdb, hrid⟩ := mem_id_of_statusOf_some hx
    rw [← hrid]
    exact hfresh r hrdb
  unfold registerRun
  cases hsel : selectActive db k with
  | none =>
      show statusOf (insertQueued db k id sha) x = _
      rw [statusOf_insertQueued_ne _ _ _ _ _ hxid]
      exact hx
  | some e =>
      show statusOf (insertQueued (cancelById db e.id) k id sha) x = _
      rw [statusOf_insertQueued_ne _ _ _ _ _ hxid, statusOf_cancelById, hx]
      simp only [Option.map_some']
      split <;> rfl

theorem registerRun_preserves_terminal (o : DestroyOracle) (db : DB)
    (k : PRKey) (id sha : String)
    (hnodup : (idsOf db).Nodup)
    (hfresh : ∀ row ∈ db, row.id ≠ id)
    (x : String) (st : RunStatus)
    (hx : statusOf db x = some st) (hterm : st.isTerminal = true) :
    statusOf (registerRun o db k id sha).db x = some st := by
  have hxid : x ≠ id := by
    obtain ⟨r, hrdb, hrid⟩ := mem_id_of_statusOf_some hx
    rw [← hrid]
    exact hfresh r hrdb
  unfold registerRun
  cases hsel : selectActive db k with
  | none =>
      show statusOf (insertQueued db k id sha) x = _
      rw [statusOf_insertQueued_ne _ _ _ _ _ hxid]
      exact hx
  | some e =>
      show statusOf (insertQueued (cancelById db e.id) k id sha) x = _
      rw [statusOf_insertQueued_ne _ _ _ _ _ hxid, statusOf_cancelById, hx]
      simp only [Option.map_some']
      have hxe : ¬ x = e.id := by
        intro hxe
        obtain ⟨r, hrdb, hrid⟩ := mem_id_of_statusOf_some hx
        have hee : e ∈ db := by
          have := List.mem_of_find?_eq_some hsel
          have hp := List.find?_some hsel
          exact this
        have hre : r = e := by
          apply List.inj_on_of_nodup_map hnodup hrdb hee
          rw [hrid, hxe]
        have hp := List.find?_some hsel
        have hact : e.status.isActive = true := by
          simp only [Bool.and_eq_true] at hp
          exact hp.2
        have hstat : statusOf db x = some e.status := by
          unfold statusOf at hx ⊢
          cases hf : db.find? (fun row => row.id == x) with
          | none => rw [hf] at hx; simp at hx
          | some r₂ =>
              have hr₂db := List.mem_of_find?_eq_some hf
              have hr₂id : r₂.id = x := by
                have := List.find?_some hf
                simpa using this
              have hr₂e : r₂ = e := by
                apply List.inj_on_of_nodup_map hnodup hr₂db hee
                rw [hr₂id, hxe]
              rw [hr₂e]
              rfl
        rw [hx] at hstat
        have : st = e.status := by simpa using hstat
        rw [this] at hterm
        rw [isActive_of_isTerminal_false hterm] at hact
        simp at hact
      simp [hxe]

-- ─── Claim C1: supersession invariant of `registerRun` ──────────────────────

/-- One registration request against a fixed PR key: the freshly generated
run id (`crypto.randomUUID()` at the call sites) and the commit SHA. -/
structure RegReq where
  newId : String
  sha : String
deriving DecidableEq, Repr

/-- The supersession property of one `register` call after another, along a
whole sequence of calls for the same key: after each call at most one run
for the key is active, the new run is queued, every run that was active
before the call is now cancelled (and stays cancelled), the superseded
run's sandbox is the one destroy was attempted on, and the superseded run
is the one returned to the caller. -/
def SeqOK (o : DestroyOracle) (k : PRKey) : DB → List RegReq → Prop
  | _, [] => True
  | db, rq :: rest =>
      (activeFor (registerRun o db k rq.newId rq.sha).db k).length ≤ 1
      ∧ statusOf (registerRun o db k rq.newId rq.sha).db rq.newId
          = some RunStatus.queued
      ∧ (∀ row ∈ activeFor db k,
          statusOf (registerRun o db k rq.newId rq.sha).db row.id
            = some RunStatus.cancelled)
      ∧ (registerRun o db k rq.newId rq.sha).destroyedIds
          = (activeFor db k).map (fun r => r.id)
      ∧ (registerRun o db k rq.newId rq.sha).cancelledRun
          = (activeFor db k).head?
      ∧ (∀ x, statusOf db x = some RunStatus.cancelled →
          statusOf (registerRun o db k rq.newId rq.sha).db x
            = some RunStatus.cancelled)
      ∧ SeqOK o k (registerRun o db k rq.newId rq.sha).db rest

/-- C1. For any sequence of completed `register` calls with the same
(owner, repo, prNumber) key — run ids fresh, starting from a table
satisfying the at-most-one-active invariant — after each call at most one
run for the key has status in &#123;queued, running&#125;, every earlier active run
for the key ends as cancelled, each call finds the most recent active run,
transitions it to cancelled, attempts a best-effort destroy of exactly its
sandbox (destroy failure swallowed: the result does not depend on the
destroy oracle), and inserts the new run with status queued. -/
theorem registerRun_supersession_invariant (o : DestroyOracle) (k : PRKey)
    (db : DB) (reqs : List RegReq)
    (hfresh : ∀ rq ∈ reqs, ∀ row ∈ db, row.id ≠ rq.newId)
    (hnodup : (reqs.map RegReq.newId).Nodup)
    (hinv : (activeFor db k).length ≤ 1) :
    SeqOK o k db reqs
    ∧ (∀ o₂ : DestroyOracle, ∀ db₀ id sha,
        registerRun o db₀ k id sha = registerRun o₂ db₀ k id sha) := by
  constructor
  · induction reqs generalizing db with
    | nil => trivial
    | cons rq rest ih =>
        have hfresh1 : ∀ row ∈ db, row.id ≠ rq.newId := by
          intro row hrow
          exact hfresh rq (by simp) row hrow
        refine ⟨?_, ?_, ?_, ?_, ?_, ?_, ?_⟩
        · rw [activeFor_registerRun o db k rq.newId rq.sha hinv]
          simp
        · exact statusOf_registerRun_self o db k rq.newId rq.sha
        · exact registerRun_cancels_prior o db k rq.newId rq.sha hfresh1 hinv
        · exact (registerRun_effects o db k rq.newId rq.sha hinv).1
        · exact (registerRun_effects o db k rq.newId rq.sha hinv).2
        · exact registerRun_preserves_cancelled o db k rq.newId rq.sha hfresh1
        · have hnd : (∀ x ∈ rest, ¬ x.newId = rq.newId)
              ∧ (List.map RegReq.newId rest).Nodup := by
            simpa using hnodup
          apply ih
          · intro rq₂ hrq₂ row hrow
            have hidmem : row.id ∈ idsOf (registerRun o db k rq.newId rq.sha).db :=
              List.mem_map_of_mem _ hrow
            rw [idsOf_registerRun] at hidmem
            cases List.mem_cons.mp hidmem with
            | inl heq =>
                rw [heq]
                intro hcontra
                exact hnd.1 rq₂ hrq₂ hcontra.symm
            | inr hmem =>
                obtain ⟨row₀, hrow₀, hid₀⟩ := List.mem_map.mp hmem
                rw [← hid₀]
                exact hfresh rq₂ (by simp [hrq₂]) row₀ hrow₀
          · exact hnd.2
          · rw [activeFor_registerRun o db k rq.newId rq.sha hinv]
            simp
  · intro o₂ db₀ id sha
    unfold registerRun
    cases selectActive db₀ k <;> rfl

-- ─── Claim C2: concurrency of `registerRun` ─────────────────────────────────

/-- Local state of one in-flight `registerRun` call. `registerRun` issues
three separate D1 statements — the SELECT (db.ts:21-28), the UPDATE
(db.ts:34-38) and the INSERT (db.ts:55-60) — with no transaction or batch
around them, so concurrent calls interleave at statement granularity.
`pc` = 0 before the SELECT, 1 after it, 2 after the UPDATE, 3 when done;
`found` caches the SELECT result the way the local `existing` binding
does. -/
structure RegThread where
  key : PRKey
  newId : String
  sha : String
  pc : Nat
  found : Option RunRow
deriving DecidableEq, Repr

/-- A fresh `registerRun` invocation about to run its SELECT. -/
def mkThread (k : PRKey) (id sha : String) : RegThread :=
  { key := k, newId := id, sha := sha, pc := 0, found := none }

/-- Execute the next single D1 statement of an in-flight `registerRun`. -/
def regStep (db : DB) (t : RegThread) : DB × RegThread :=
  match t.pc with
  | 0 => (db, { t with found := selectActive db t.key, pc := 1 })
  | 1 =>
      match t.found with
      | some existing => (cancelById db existing.id, { t with pc := 2 })
      | none => (insertQueued db t.key t.newId t.sha, { t with pc := 3 })
  | 2 => (insertQueued db t.key t.newId t.sha, { t with pc := 3 })
  | _ => (db, t)

/-- Run a statement-level interleaving: each schedule entry names the thread
whose next statement executes. -/
def runSchedule : DB → List RegThread → List Nat → DB × List RegThread
  | db, ts, [] => (db, ts)
  | db, ts, i :: rest =>
      match ts[i]? with
      | none => runSchedule db ts rest
      | some t =>
          let p := regStep db t
          runSchedule p.1 (ts.set i p.2) rest

/-- Running one thread's three statements back to back is exactly the atomic
`registerRun` — the interleaving machine is the same code at statement
granularity. -/
theorem runSchedule_single_eq_registerRun (o : DestroyOracle) (db : DB)
    (k : PRKey) (id sha : String) :
    (runSchedule db [mkThread k id sha] [0, 0, 0]).1
      = (registerRun o db k id sha).db := by
  cases hsel : selectActive db k with
  | none => simp [runSchedule, regStep, mkThread, registerRun, hsel]
  | some e => simp [runSchedule, regStep, mkThread, registerRun, hsel]

/-- The PR key of the racing registrations. -/
def raceKey : PRKey := ⟨"acme", "widget", 42⟩

/-- Two near-simultaneous `registerRun` calls for the same PR key. -/
def raceThreads : List RegThread :=
  [mkThread raceKey "runA" "sha1", mkThread raceKey "runB" "sha2"]

/-- C2 fails on the code: `registerRun`'s supersede-then-insert is three
separate D1 statements with no storage-layer conditional write or
transaction, so the SELECT/SELECT/INSERT/INSERT interleaving of two
concurrent calls for the same key leaves BOTH runs queued — two
simultaneously active runs — while the fully serialized schedule leaves
exactly one. This theorem evaluates the statement-level machine at that
failing interleaving. -/
theorem registerRun_race_two_active :
    (activeFor (runSchedule [] raceThreads [0, 1, 0, 1]).1 raceKey).length = 2
    ∧ statusOf (runSchedule [] raceThreads [0, 1, 0, 1]).1 "runA"
        = some RunStatus.queued
    ∧ statusOf (runSchedule [] raceThreads [0, 1, 0, 1]).1 "runB"
        = some RunStatus.queued
    ∧ (∀ t ∈ (runSchedule [] raceThreads [0, 1, 0, 1]).2, t.pc = 3)
    ∧ (activeFor (runSchedule [] raceThreads [0, 0, 1, 1, 1]).1 raceKey).length
        = 1
    ∧ statusOf (runSchedule [] raceThreads [0, 0, 1, 1, 1]).1 "runA"
        = some RunStatus.cancelled
    ∧ statusOf (runSchedule [] raceThreads [0, 0, 1, 1, 1]).1 "runB"
        = some RunStatus.queued := by
  decide

-- ─── Claim C4: terminal-state monotonicity ──────────────────────────────────

theorem statusOf_updateRunStatus (db : DB) (id : String) (s : RunStatus)
    (x : String) :
    statusOf (updateRunStatus db id s) x
      = (statusOf db x).map
          (fun st => if x = id ∧ st.isTerminal = false then s else st) := by
  unfold updateRunStatus
  rw [statusOf_map db _ (fun r => by split <;> rfl) x]
  unfold statusOf
  cases hf : db.find? (fun r => r.id == x) with
  | none => rfl
  | some r =>
      have hrx : r.id = x := by simpa using List.find?_some hf
      simp only [Option.map_some']
      by_cases hxe : x = id
      · have hb : (r.id == id) = true := by rw [hrx]; simpa using hxe
        cases ht : r.status.isTerminal with
        | true => simp [hb, ht, hxe]
        | false => simp [hb, ht, hxe]
      · have hb : (r.id == id) = false := by rw [hrx]; simpa using hxe
        simp [hb, hxe]

/-- C4. Once a run's status is terminal (completed, cancelled or failed),
no `updateRunStatus` call changes it — the guard is the conditional UPDATE
`WHERE id = ? AND status NOT IN ('cancelled','completed','failed')` itself
— and `registerRun` (the only other status writer besides kill) also never
touches a terminal row; `killRun` alone overrides a terminal state. -/
theorem terminal_state_monotonicity :
    (∀ (db : DB) (id : String) (s : RunStatus) (x : String) (st : RunStatus),
        statusOf db x = some st → st.isTerminal = true →
        statusOf (updateRunStatus db id s) x = some st)
    ∧ (∀ (o : DestroyOracle) (db : DB) (k : PRKey) (id sha : String)
        (x : String) (st : RunStatus),
        (idsOf db).Nodup → (∀ row ∈ db, row.id ≠ id) →
        statusOf db x = some st → st.isTerminal = true →
        statusOf (registerRun o db k id sha).db x = some st)
    ∧ (∀ (o : DestroyOracle) (db : DB) (id : String) (st : RunStatus),
        statusOf db id = some st →
        statusOf (killRun o db id).db id = some RunStatus.failed) := by
  refine ⟨?_, ?_, ?_⟩
  · intro db id s x st hx hterm
    rw [statusOf_updateRunStatus, hx]
    simp [hterm]
  · intro o db k id sha x st hnodup hfresh hx hterm
    exact registerRun_preserves_terminal o db k id sha hnodup hfresh x st hx
      hterm
  · intro o db id st hst
    unfold killRun
    cases hf : db.find? (fun r => r.id == id) with
    | none =>
        unfold statusOf at hst
        rw [hf] at hst
        simp at hst
    | some r =>
        show statusOf (failById db id) id = _
        rw [statusOf_failById, hst]
        simp

/-- A one-row table whose only run is already completed. -/
def dbDone : DB :=
  [{ id := "done1", owner := "acme", repo := "widget", prNumber := 7,
     commitSha := "shaX", status := RunStatus.completed }]

/-- Witness for C4: on a completed run, `updateRunStatus` to running is a
no-op, a fresh registration for the same PR leaves it completed, and
`killRun` forces it to failed. -/
theorem terminal_state_monotonicity_witness :
    statusOf (updateRunStatus dbDone "done1" RunStatus.running) "done1"
        = some RunStatus.completed
    ∧ statusOf (registerRun (fun _ => false) dbDone ⟨"acme", "widget", 7⟩
        "fresh1" "shaY").db "done1" = some RunStatus.completed
    ∧ statusOf (killRun (fun _ => false) dbDone "done1").db "done1"
        = some RunStatus.failed :=
  ⟨terminal_state_monotonicity.1 dbDone "done1" RunStatus.running "done1"
      RunStatus.completed (by decide) (by decide),
   terminal_state_monotonicity.2.1 (fun _ => false) dbDone
      ⟨"acme", "widget", 7⟩ "fresh1" "shaY" "done1" RunStatus.completed
      (by decide) (by decide) (by decide) (by decide),
   terminal_state_monotonicity.2.2 (fun _ => false) dbDone "done1"
      RunStatus.completed (by decide)⟩

-- ─── Claim C7: `killRun` semantics ──────────────────────────────────────────

/-- C7. `killRun` force-sets the run's status to failed regardless of its
current state (terminal included); when the run exists it returns true and
attempts a best-effort destroy of exactly that run's sandbox (destroy
failure swallowed: the result does not depend on the destroy oracle), and
it returns false if and only if no run with that id exists — in which case
it changes nothing. -/
theorem killRun_force_fail (o : DestroyOracle) (db : DB) (id : String) :
    ((killRun o db id).found = false ↔ statusOf db id = none)
    ∧ (∀ st, statusOf db id = some st →
        (killRun o db id).found = true
        ∧ statusOf (killRun o db id).db id = some RunStatus.failed
        ∧ (killRun o db id).destroyedIds = [id])
    ∧ (statusOf db id = none →
        killRun o db id = { db := db, found := false, destroyedIds := [] })
    ∧ (∀ o₂, killRun o db id = killRun o₂ db id) := by
  unfold killRun
  cases hf : db.find? (fun r => r.id == id) with
  | none =>
      have hnone : statusOf db id = none := by
        unfold statusOf
        rw [hf]
        rfl
      refine ⟨by simp [hnone], ?_, fun _ => rfl, fun o₂ => rfl⟩
      intro st hst
      rw [hnone] at hst
      simp at hst
  | some r =>
      have hsome : statusOf db id = some r.status := by
        unfold statusOf
        rw [hf]
        rfl
      refine ⟨by simp [hsome], ?_, ?_, fun o₂ => rfl⟩
      · intro st hst
        refine ⟨rfl, ?_, rfl⟩
        show statusOf (failById db id) id = _
        rw [statusOf_failById, hsome]
        simp
      · intro hnone
        rw [hnone] at hsome
        simp at hsome

/-- Witness for C7 at Scenario E: killing an already-completed run forces
failed, returns true, attempts the destroy. -/
theorem killRun_force_fail_witness :
    (killRun (fun _ => false) dbDone "done1").found = true
    ∧ statusOf (killRun (fun _ => false) dbDone "done1").db "done1"
        = some RunStatus.failed
    ∧ (killRun (fun _ => false) dbDone "done1").destroyedIds = ["done1"] :=
  (killRun_force_fail (fun _ => false) dbDone "done1").2.1
    RunStatus.completed (by decide)

-- ─── Claim C9: queue consumer skips superseded runs ─────────────────────────

/-- The queue message a job is executed against (`QueueMessage` fields the
consumer dispatch logic uses). -/
structure QueueJob where
  sandboxId : String
  owner : String
  repo : String
  prNumber : Nat
  commitSha : String
deriving DecidableEq, Repr

/-- Externally visible actions of the queue consumer for one message. -/
inductive QAction where
  | ackMsg
  | setStatus (id : String) (s : RunStatus)
  | startJob (id : String)
  | writeErrorLog (id : String)
  | destroySandbox (id : String)
deriving DecidableEq, Repr

/-- Queue consumer for one dequeued message (`handleQueue`, queue.ts:20-41):
if the registry says the run is no longer active (cancelled / superseded),
log, ack and continue without touching the run row or the sandbox;
otherwise mark it running and start the screenshot job (whose setup may
throw — `startJobFails`), ack, and on setup failure run
`failAndCleanupSandbox` (cleanup.ts:44-82): best-effort mark failed, write
the error to the sandbox log, destroy the sandbox, then ack. The post-ack
polling closure is modelled separately (`runCleanupClosure`). -/
def handleQueueMsg (startJobFails : Bool) (db : DB) (job : QueueJob) :
    DB × List QAction :=
  if isRunActive db job.sandboxId then
    let db1 := updateRunStatus db job.sandboxId RunStatus.running
    if startJobFails then
      (updateRunStatus db1 job.sandboxId RunStatus.failed,
        [QAction.setStatus job.sandboxId RunStatus.running,
         QAction.startJob job.sandboxId,
         QAction.setStatus job.sandboxId RunStatus.failed,
         QAction.writeErrorLog job.sandboxId,
         QAction.destroySandbox job.sandboxId,
         QAction.ackMsg])
    else
      (db1,
        [QAction.setStatus job.sandboxId RunStatus.running,
         QAction.startJob job.sandboxId,
         QAction.ackMsg])
  else
    (db, [QAction.ackMsg])

/-- C9. If at dequeue time the registry reports the run is not active
(status neither queued nor running), the consumer just acks: the table is
untouched and no status transition, sandbox operation or job start
happens. -/
theorem handleQueue_skips_inactive (f : Bool) (db : DB) (job : QueueJob)
    (h : isRunActive db job.sandboxId = false) :
    handleQueueMsg f db job = (db, [QAction.ackMsg]) := by
  unfold handleQueueMsg
  simp [h]

/-- Witness for C9: a message for a run that was already cancelled. -/
theorem handleQueue_skips_inactive_witness :
    handleQueueMsg true
      [{ id := "job1", owner := "acme", repo := "widget", prNumber := 42,
         commitSha := "sha1", status := RunStatus.cancelled }]
      { sandboxId := "job1", owner := "acme", repo := "widget",
        prNumber := 42, commitSha := "sha1" }
      = ([{ id := "job1", owner := "acme", repo := "widget", prNumber := 42,
            commitSha := "sha1", status := RunStatus.cancelled }],
         [QAction.ackMsg]) :=
  handleQueue_skips_inactive true _ _ (by decide)

-- ─── Workflow orchestrator model (workflow.ts) ──────────────────────────────

/-- One screenshot manifest entry (`ScreenshotEntry` in types):
(absolute path inside the sandbox, route, description). -/
structure ScreenshotEntry where
  path : String
  route : String
  description : String
deriving DecidableEq, Repr

/-- The agent's structured output (`ScreenshotManifest`). -/
structure ScreenshotManifest where
  screenshots : List ScreenshotEntry
deriving DecidableEq, Repr

/-- An uploaded screenshot as collected by the upload loop. -/
structure UploadedScreenshot where
  route : String
  description : String
  url : String
deriving DecidableEq, Repr

/-- Observable effects of the upload-and-comment step. -/
inductive UCAction where
  | uploadBlob (route : String)
  | postComment (body : String)
deriving DecidableEq, Repr

/-- The inline "no screenshots" comment body (workflow.ts:295, with
`commitSha.slice(0, 7)` interpolated). -/
def noScreenshotsComment (sha : String) : String :=
  "## Visual Diff\n\nNo screenshots were taken for commit `"
    ++ sha.take 7
    ++ "`. The agent could not determine which pages to screenshot, or the app failed to start."

/-- Modelled from the spec: `buildCommentMarkdown` lives in
`src/worker/storage.ts`, which is not among the provided sources (only its
callers are). Per the spec it renders one PR comment containing all
uploaded images for the commit. The body's exact text is irrelevant to the
claims; only that a single comment is posted. -/
def buildCommentMarkdown (sha : String) (uploaded : List UploadedScreenshot) :
    String :=
  "## Visual Diff (" ++ sha.take 7 ++ ")\n"
    ++ String.join (uploaded.map (fun u =>
        "![" ++ u.description ++ "](" ++ u.url ++ ")\n"))

/-- The upload-and-comment step body (workflow.ts:274-332), given the parsed
manifest: if it has zero entries, post the explanatory comment and return;
otherwise upload each screenshot and post one comment with all of them.
The blob upload is recorded by route (the R2 key is derived from owner,
repo, run id and route in `screenshotR2Key`, storage.ts, not provided). -/
def uploadAndComment (sha : String) (m : ScreenshotManifest) :
    List UCAction :=
  if m.screenshots.length == 0 then
    [UCAction.postComment (noScreenshotsComment sha)]
  else
    (m.screenshots.map (fun e => UCAction.uploadBlob e.route))
      ++ [UCAction.postComment
            (buildCommentMarkdown sha
              (m.screenshots.map (fun e =>
                { route := e.route, description := e.description,
                  url := "" })))]

/-- Step-level trace of one `ScreenshotWorkflow.run` execution. -/
inductive WAction where
  | stepMarkRunning
  | stepClone
  | stepWriteContext
  | stepStartAgent
  | stepWaitForAgent
  | ucAction (a : UCAction)
  | stepMarkCompleted
  | stepMarkFailed
  | cleanupFlushLogs
  | cleanupFlushMessages
  | cleanupKillProcs
  | cleanupDestroy
deriving DecidableEq, Repr

/-- Outcome oracle for one workflow execution. Each `...Fails` flag is the
final outcome of the corresponding fallible call after the step's own
retry policy is exhausted; `manifestAppearSec` is the second (from the
start of the wait step) at which the agent writes
`/workspace/screenshot-manifest.json`, `none` if never. -/
structure WOracle where
  markRunningFails : Bool
  cloneFails : Bool
  writeContextFails : Bool
  startAgentFails : Bool
  waitExecFails : Bool
  manifestAppearSec : Option Nat
  uploadStepThrows : Bool
  markCompletedFails : Bool
  markFailedFails : Bool
  flushLogsFails : Bool
  flushMessagesFails : Bool
  killProcsFails : Bool
  destroyFails : Bool
deriving DecidableEq, Repr

/-- `AGENT_TIMEOUT_SECS = 600` (workflow.ts:45). -/
def AGENT_TIMEOUT_SECS : Nat := 600

/-- The wait step's surrounding timeout: `12 minutes` (workflow.ts:260). -/
def WAIT_STEP_TIMEOUT_SECS : Nat := 720

/-- Result of the in-sandbox shell loop (workflow.ts:263-269):
`for i in $(seq 1 600); do [ -f manifest ] && echo FOUND && exit 0;
sleep 1; done; echo TIMEOUT`. The i-th check runs at elapsed second i-1,
so a manifest appearing at second t is found iff t < 600. -/
def waitFound (o : WOracle) : Bool :=
  match o.manifestAppearSec with
  | some t => decide (t < AGENT_TIMEOUT_SECS)
  | none => false

/-- Wall-clock seconds the wait-step exec takes: the loop exits right after
the check that finds the manifest, and after 600 one-second sleeps
otherwise. -/
def waitExecSeconds (o : WOracle) : Nat :=
  match o.manifestAppearSec with
  | some t => min (t + 1) AGENT_TIMEOUT_SECS
  | none => AGENT_TIMEOUT_SECS

/-- `if (fails) throw` — the final outcome of a fallible call. -/
def stepOutcome (fails : Bool) : Except Unit Unit :=
  if fails then Except.error () else Except.ok ()

/-- Run one step: record the attempt, propagate its failure, otherwise
continue. -/
def andThen (acc : List WAction) (a : WAction) (fails : Bool)
    (rest : List WAction → Except Unit Unit × List WAction) :
    Except Unit Unit × List WAction :=
  if fails then (Except.error (), acc ++ [a]) else rest (acc ++ [a])

/-- The try-block of `ScreenshotWorkflow.run` (workflow.ts:54-67):
mark-running, clone-repo, write-context, start-agent, wait-for-agent, then
upload-and-comment only when the manifest was found, then mark-completed.
`m` is the manifest the upload step would parse. -/
def trySteps (o : WOracle) (sha : String) (m : ScreenshotManifest) :
    Except Unit Unit × List WAction :=
  andThen [] WAction.stepMarkRunning o.markRunningFails fun acc =>
  andThen acc WAction.stepClone o.cloneFails fun acc =>
  andThen acc WAction.stepWriteContext o.writeContextFails fun acc =>
  andThen acc WAction.stepStartAgent o.startAgentFails fun acc =>
  andThen acc WAction.stepWaitForAgent o.waitExecFails fun acc =>
  if waitFound o then
    if o.uploadStepThrows then (Except.error (), acc)
    else
      andThen (acc ++ (uploadAndComment sha m).map WAction.ucAction)
        WAction.stepMarkCompleted o.markCompletedFails fun acc =>
        (Except.ok (), acc)
  else
    andThen acc WAction.stepMarkCompleted o.markCompletedFails fun acc =>
      (Except.ok (), acc)

/-- `bestEffort(fn)` (utils.ts:13-21) applied to one action: the attempt
happens, the outcome is computed and discarded. -/
def bestEffortAct (a : WAction) (fails : Bool) : List WAction :=
  let _outcome := stepOutcome fails
  [a]

/-- The `cleanup` step (workflow.ts:334-386): wrapped in `bestEffort` as a
whole, and each of its four sub-actions — flush agent log to R2, flush
transcript to R2, kill remaining sandbox processes, destroy the sandbox —
is wrapped in its own `bestEffort`, so each is attempted no matter how the
previous ones fared, and the step never throws. -/
def cleanup (o : WOracle) : Except Unit Unit × List WAction :=
  (Except.ok (),
    bestEffortAct WAction.cleanupFlushLogs o.flushLogsFails
      ++ bestEffortAct WAction.cleanupFlushMessages o.flushMessagesFails
      ++ bestEffortAct WAction.cleanupKillProcs o.killProcsFails
      ++ bestEffortAct WAction.cleanupDestroy o.destroyFails)

/-- The catch-branch of `run` (workflow.ts:68-74): a best-effort mark-failed
transition after any error in the try-block. -/
def catchTrace (o : WOracle) (sha : String) (m : ScreenshotManifest) :
    List WAction :=
  match (trySteps o sha m).1 with
  | Except.ok _ => (trySteps o sha m).2
  | Except.error _ =>
      (trySteps o sha m).2
        ++ bestEffortAct WAction.stepMarkFailed o.markFailedFails

/-- `ScreenshotWorkflow.run` (workflow.ts:51-77): try the steps, catch any
error with a best-effort mark-failed, then always run cleanup. -/
def runWorkflow (o : WOracle) (sha : String) (m : ScreenshotManifest) :
    Except Unit Unit × List WAction :=
  (Except.ok (), catchTrace o sha m ++ (cleanup o).2)

-- ─── Claim C5: failure semantics and best-effort cleanup ────────────────────

/-- C5. Every workflow execution: an uncaught error anywhere in the step
sequence is caught at the sequence level and answered with a best-effort
mark-failed; execution always falls through to cleanup, whose four
sub-actions (flush logs, flush transcript, kill processes, destroy) are
each attempted regardless of every failure oracle — a failure in one does
not prevent the others — and neither cleanup nor `run` itself ever
propagates an error. -/
theorem workflow_failure_semantics (o : WOracle) (sha : String)
    (m : ScreenshotManifest) :
    (runWorkflow o sha m).1 = Except.ok ()
    ∧ (cleanup o).1 = Except.ok ()
    ∧ (runWorkflow o sha m).2
        = catchTrace o sha m
          ++ [WAction.cleanupFlushLogs, WAction.cleanupFlushMessages,
              WAction.cleanupKillProcs, WAction.cleanupDestroy]
    ∧ ((trySteps o sha m).1 = Except.error () →
        WAction.stepMarkFailed ∈ (runWorkflow o sha m).2) := by
  refine ⟨rfl, rfl, rfl, ?_⟩
  intro herr
  show WAction.stepMarkFailed ∈ catchTrace o sha m ++ (cleanup o).2
  unfold catchTrace
  rw [herr]
  simp [bestEffortAct]

/-- An execution whose clone step fails and whose cleanup sub-actions all
fail too. -/
def oracleCloneFail : WOracle :=
  { markRunningFails := false, cloneFails := true, writeContextFails := false,
    startAgentFails := false, waitExecFails := false,
    manifestAppearSec := none, uploadStepThrows := false,
    markCompletedFails := false, markFailedFails := true,
    flushLogsFails := true, flushMessagesFails := true,
    killProcsFails := true, destroyFails := true }

/-- Witness for C5: clone fails, every cleanup sub-action fails, yet `run`
returns cleanly, mark-failed is attempted, and all four cleanup
sub-actions are attempted. -/
theorem workflow_failure_semantics_witness :
    (runWorkflow oracleCloneFail "sha1234567" ⟨[]⟩).1 = Except.ok ()
    ∧ (runWorkflow oracleCloneFail "sha1234567" ⟨[]⟩).2
        = catchTrace oracleCloneFail "sha1234567" ⟨[]⟩
          ++ [WAction.cleanupFlushLogs, WAction.cleanupFlushMessages,
              WAction.cleanupKillProcs, WAction.cleanupDestroy]
    ∧ WAction.stepMarkFailed
        ∈ (runWorkflow oracleCloneFail "sha1234567" ⟨[]⟩).2 :=
  ⟨(workflow_failure_semantics oracleCloneFail "sha1234567" ⟨[]⟩).1,
   (workflow_failure_semantics oracleCloneFail "sha1234567" ⟨[]⟩).2.2.1,
   (workflow_failure_semantics oracleCloneFail "sha1234567" ⟨[]⟩).2.2.2
     rfl⟩

-- ─── Claim C6: manifest never appears within the internal deadline ──────────

/-- An execution where every infrastructure call succeeds but the agent
never writes the manifest. -/
def oracleNoManifest : WOracle :=
  { markRunningFails := false, cloneFails := false,
    writeContextFails := false, startAgentFails := false,
    waitExecFails := false, manifestAppearSec := none,
    uploadStepThrows := false, markCompletedFails := false,
    markFailedFails := false, flushLogsFails := false,
    flushMessagesFails := false, killProcsFails := false,
    destroyFails := false }

/-- C6 is half right and half wrong on the code. Right: the inner 600 × 1 s
deadline resolves in 600 s, strictly inside the 12-minute step timeout, so
the step reports a clean not-found result (`waitFound = false`) instead of
a step timeout, and no screenshot upload is attempted. Wrong: the run then
transitions to COMPLETED, not failed — `run` checks `if (manifestFound)`
only to skip the upload and unconditionally proceeds to mark-completed
(workflow.ts:61-67), never marking the run failed. -/
theorem waitTimeout_marks_completed :
    waitExecSeconds oracleNoManifest = 600
    ∧ waitExecSeconds oracleNoManifest < WAIT_STEP_TIMEOUT_SECS
    ∧ waitFound oracleNoManifest = false
    ∧ (runWorkflow oracleNoManifest "sha1234567" ⟨[]⟩).2
        = [WAction.stepMarkRunning, WAction.stepClone,
           WAction.stepWriteContext, WAction.stepStartAgent,
           WAction.stepWaitForAgent, WAction.stepMarkCompleted,
           WAction.cleanupFlushLogs, WAction.cleanupFlushMessages,
           WAction.cleanupKillProcs, WAction.cleanupDestroy]
    ∧ WAction.stepMarkFailed ∉ (runWorkflow oracleNoManifest "sha1234567" ⟨[]⟩).2
    ∧ (∀ a : UCAction,
        WAction.ucAction a ∉ (runWorkflow oracleNoManifest "sha1234567" ⟨[]⟩).2)
    ∧ WAction.stepMarkCompleted
        ∈ (runWorkflow oracleNoManifest "sha1234567" ⟨[]⟩).2 := by
  refine ⟨rfl, by decide, rfl, rfl, by decide, ?_, by decide⟩
  intro a
  intro hmem
  have : (runWorkflow oracleNoManifest "sha1234567" ⟨[]⟩).2
      = [WAction.stepMarkRunning, WAction.stepClone,
         WAction.stepWriteContext, WAction.stepStartAgent,
         WAction.stepWaitForAgent, WAction.stepMarkCompleted,
         WAction.cleanupFlushLogs, WAction.cleanupFlushMessages,
         WAction.cleanupKillProcs, WAction.cleanupDestroy] := rfl
  rw [this] at hmem
  simp at hmem

-- ─── Claim C8: empty manifest posts one comment, zero uploads ───────────────

/-- Is this upload-and-comment effect a blob upload? -/
def UCAction.isUpload : UCAction → Bool
  | .uploadBlob _ => true
  | _ => false

/-- Is this upload-and-comment effect a PR comment? -/
def UCAction.isComment : UCAction → Bool
  | .postComment _ => true
  | _ => false

/-- C8. When the wait step found the manifest and the parsed manifest has
zero entries, the upload-and-comment step posts exactly one explanatory
"no screenshots" PR comment, performs zero blob uploads, and stops — its
effect list is exactly that single comment. -/
theorem uploadAndComment_empty_manifest (sha : String)
    (m : ScreenshotManifest) (h : m.screenshots = []) :
    uploadAndComment sha m
        = [UCAction.postComment (noScreenshotsComment sha)]
    ∧ ((uploadAndComment sha m).filter UCAction.isUpload).length = 0
    ∧ ((uploadAndComment sha m).filter UCAction.isComment).length = 1 := by
  have he : uploadAndComment sha m
      = [UCAction.postComment (noScreenshotsComment sha)] := by
    unfold uploadAndComment
    rw [h]
    rfl
  refine ⟨he, ?_, ?_⟩ <;> rw [he] <;> rfl

/-- Witness for C8 at Scenario D: an empty manifest. -/
theorem uploadAndComment_empty_manifest_witness :
    uploadAndComment "abc1234567" ⟨[]⟩
        = [UCAction.postComment (noScreenshotsComment "abc1234567")]
    ∧ ((uploadAndComment "abc1234567" ⟨[]⟩).filter UCAction.isUpload).length
        = 0
    ∧ ((uploadAndComment "abc1234567" ⟨[]⟩).filter UCAction.isComment).length
        = 1 :=
  uploadAndComment_empty_manifest "abc1234567" ⟨[]⟩ rfl

-- ─── Queue-orchestrator polling model (sandbox.ts) ──────────────────────────

/-- Environment oracle for `pollForCompletion`, indexed by poll count `n`
(one poll ≈ 3 s): whether `isRunActive` still reports the run active,
whether the manifest file exists at the poll's check, whether it exists at
the extra 5-second retry, and whether the agent session reports idle. -/
structure PollEnv where
  isActive : Nat → Bool
  manifestAt : Nat → Bool
  manifestRetryAt : Nat → Bool
  idleAt : Nat → Bool

/-- The pair `pollForCompletion` returns (sandbox.ts:49). -/
structure PollResult where
  manifestFound : Bool
  cancelled : Bool
deriving DecidableEq, Repr

/-- The loop of `pollForCompletion` (sandbox.ts:55-126), with the trace of
`isRunActive` queries (poll count, answer). Each iteration sleeps 3 s and
increments the poll count; `fuel` is the number of 3-second ticks left in
the 600 s deadline. Per iteration, in source order: at every 10th poll the
cancellation checkpoint (return the distinguished cancelled outcome if the
registry says the run is no longer active, sandbox.ts:60-66) and then the
manifest check (sandbox.ts:69-78); every poll, the session-status check —
if the agent is idle (and pollCount > 1) a final manifest check plus one
5-second retry decide the result (sandbox.ts:98-120); at every 10th poll
logs and messages are flushed to R2 (not traced here). -/
def pollLoop (e : PollEnv) : Nat → Nat → PollResult × List (Nat × Bool)
  | 0, _ => ({ manifestFound := false, cancelled := false }, [])
  | Nat.succ fuel, pc =>
      let n := pc + 1
      if n % 10 == 0 then
        if e.isActive n then
          if e.manifestAt n then
            ({ manifestFound := true, cancelled := false }, [(n, true)])
          else if e.idleAt n && decide (1 < n) then
            ({ manifestFound := e.manifestRetryAt n, cancelled := false },
              [(n, true)])
          else
            let rest := pollLoop e fuel n
            (rest.1, (n, true) :: rest.2)
        else ({ manifestFound := false, cancelled := true }, [(n, false)])
      else
        if e.idleAt n && decide (1 < n) then
          ({ manifestFound := e.manifestAt n || e.manifestRetryAt n,
             cancelled := false }, [])
        else pollLoop e fuel n

/-- `pollForCompletion` (sandbox.ts:47-129): 600 000 ms deadline, 3 s sleep
per iteration — 200 ticks. -/
def pollForCompletion (e : PollEnv) : PollResult × List (Nat × Bool) :=
  pollLoop e 200 0

/-- Externally visible actions of the post-ack closure of
`startScreenshotJob` and of `cleanupResources`. -/
inductive SAction where
  | uploadCommentWork
  | setStatus (s : RunStatus)
  | flushFinal
  | serverClose
  | killProcs
  | destroySandbox
deriving DecidableEq, Repr

/-- `cleanupResources` (sandbox.ts:207-238): flush logs and messages to R2,
then update the run status only when a final status was decided
(`finalStatus = null` after a cancellation skips it), then best-effort
close the agent server, kill sandbox processes and destroy the sandbox. -/
def cleanupResources (finalStatus : Option RunStatus) : List SAction :=
  [SAction.flushFinal]
    ++ (match finalStatus with
        | some s => [SAction.setStatus s]
        | none => [])
    ++ [SAction.serverClose, SAction.killProcs, SAction.destroySandbox]

/-- The post-ack closure of `startScreenshotJob` (sandbox.ts:494-528):
`finalStatus` starts as "failed"; if polling reports the run cancelled
(superseded), set it to null and return — skipping the upload-and-comment
work and any status write; if the manifest never appeared, throw the
10-minute timeout error; otherwise run the upload-and-comment work
(`uploadThrows` is its outcome) and set "completed"; the `finally` always
runs `cleanupResources`. -/
def runCleanupClosure (e : PollEnv) (uploadThrows : Bool) :
    Except Unit Unit × List SAction :=
  let r := (pollForCompletion e).1
  if r.cancelled then
    (Except.ok (), cleanupResources none)
  else if !r.manifestFound then
    (Except.error (), cleanupResources (some RunStatus.failed))
  else if uploadThrows then
    (Except.error (),
      SAction.uploadCommentWork :: cleanupResources (some RunStatus.failed))
  else
    (Except.ok (),
      SAction.uploadCommentWork :: cleanupResources (some RunStatus.completed))

theorem pollLoop_checkActive_every_tenth (e : PollEnv) :
    ∀ (fuel pc : Nat), ∀ q ∈ (pollLoop e fuel pc).2,
      q.1 % 10 = 0 ∧ q.2 = e.isActive q.1 := by
  intro fuel
  induction fuel with
  | zero =>
      intro pc q hq
      simp [pollLoop] at hq
  | succ f ih =>
      intro pc q hq
      unfold pollLoop at hq
      by_cases h10 : ((pc + 1) % 10 == 0) = true
      · rw [if_pos h10] at hq
        have h10' : (pc + 1) % 10 = 0 := by simpa using h10
        by_cases hact : e.isActive (pc + 1) = true
        · rw [if_pos hact] at hq
          by_cases hman : e.manifestAt (pc + 1) = true
          · rw [if_pos hman] at hq
            simp at hq
            rw [hq]
            exact ⟨h10', hact.symm⟩
          · rw [if_neg hman] at hq
            by_cases hidle : (e.idleAt (pc + 1) && decide (1 < pc + 1)) = true
            · rw [if_pos hidle] at hq
              simp at hq
              rw [hq]
              exact ⟨h10', hact.symm⟩
            · rw [if_neg hidle] at hq
              simp only [List.mem_cons] at hq
              cases hq with
              | inl heq =>
                  rw [heq]
                  exact ⟨h10', hact.symm⟩
              | inr hmem => exact ih (pc + 1) q hmem
        · rw [if_neg hact] at hq
          simp at hq
          rw [hq]
          refine ⟨h10', ?_⟩
          simp only [Bool.not_eq_true] at hact
          exact hact.symm
      · rw [if_neg h10] at hq
        by_cases hidle : (e.idleAt (pc + 1) && decide (1 < pc + 1)) = true
        · rw [if_pos hidle] at hq
          simp at hq
        · rw [if_neg hidle] at hq
          exact ih (pc + 1) q hq

theorem pollLoop_cancels (e : PollEnv) (n : Nat) (h10 : n % 10 = 0)
    (hact : e.isActive n = false) :
    ∀ (fuel pc : Nat), pc < n → n ≤ pc + fuel →
    (∀ m, pc < m → m < n →
      e.isActive m = true ∧ e.manifestAt m = false ∧ e.idleAt m = false) →
    (pollLoop e fuel pc).1 = { manifestFound := false, cancelled := true } := by
  intro fuel
  induction fuel with
  | zero =>
      intro pc hlt hle hbef
      omega
  | succ f ih =>
      intro pc hlt hle hbef
      by_cases heq : pc + 1 = n
      · unfold pollLoop
        rw [heq]
        have hg : (n % 10 == 0) = true := by simpa using h10
        rw [if_pos hg, if_neg (by rw [hact]; simp)]
      · have hlt' : pc + 1 < n := by omega
        obtain ⟨ha, hm, hi⟩ := hbef (pc + 1) (by omega) hlt'
        unfold pollLoop
        by_cases hg : ((pc + 1) % 10 == 0) = true
        · rw [if_pos hg, if_pos ha, if_neg (by rw [hm]; simp),
            if_neg (by rw [hi]; simp)]
          exact ih (pc + 1) hlt' (by omega)
            (fun m hm1 hm2 => hbef m (by omega) hm2)
        · rw [if_neg hg, if_neg (by rw [hi]; simp)]
          exact ih (pc + 1) hlt' (by omega)
            (fun m hm1 hm2 => hbef m (by omega) hm2)

/-- C3. During the long wait the closure re-checks `isRunActive` against the
registry only and exactly at every 10th poll — every ~30 s of 3-second
ticks — and whenever such a check reports the run inactive (superseded,
here at poll `n`, nothing having ended the wait earlier), polling returns
the distinguished cancelled outcome and the closure: skips the
upload-and-comment work, performs no status write at all (in particular
never marks the run failed), does not throw, and still runs the cleanup
teardown (flush, server close, kill processes, destroy). -/
theorem pollForCompletion_cancellation (e : PollEnv) (u : Bool) (n : Nat)
    (hn : 0 < n) (h10 : n % 10 = 0) (hfuel : n ≤ 200)
    (hact : e.isActive n = false)
    (hbefore : ∀ m, 0 < m → m < n →
      e.isActive m = true ∧ e.manifestAt m = false ∧ e.idleAt m = false) :
    (pollForCompletion e).1 = { manifestFound := false, cancelled := true }
    ∧ runCleanupClosure e u
        = (Except.ok (),
           [SAction.flushFinal, SAction.serverClose, SAction.killProcs,
            SAction.destroySandbox])
    ∧ SAction.uploadCommentWork ∉ (runCleanupClosure e u).2
    ∧ (∀ s, SAction.setStatus s ∉ (runCleanupClosure e u).2)
    ∧ SAction.destroySandbox ∈ (runCleanupClosure e u).2
    ∧ (∀ e₂ : PollEnv, ∀ q ∈ (pollForCompletion e₂).2,
        q.1 % 10 = 0 ∧ q.2 = e₂.isActive q.1) := by
  have hres : (pollForCompletion e).1
      = { manifestFound := false, cancelled := true } :=
    pollLoop_cancels e n h10 hact 200 0 hn (by omega)
      (fun m hm1 hm2 => hbefore m hm1 hm2)
  have hclosure : runCleanupClosure e u
      = (Except.ok (),
         [SAction.flushFinal, SAction.serverClose, SAction.killProcs,
          SAction.destroySandbox]) := by
    unfold runCleanupClosure
    rw [hres]
    rfl
  refine ⟨hres, hclosure, ?_, ?_, ?_, ?_⟩
  · rw [hclosure]
    simp
  · intro s
    rw [hclosure]
    simp
  · rw [hclosure]
    simp
  · intro e₂ q hq
    exact pollLoop_checkActive_every_tenth e₂ 200 0 q hq

/-- An environment in which the run is superseded before the 10th poll and
nothing else ends the wait: active for the first nine polls, manifest
never present, agent never idle. -/
def envSuperseded : PollEnv :=
  { isActive := fun n => decide (n < 10)
    manifestAt := fun _ => false
    manifestRetryAt := fun _ => false
    idleAt := fun _ => false }

/-- Witness for C3 at Scenario B: the registry reports the run inactive at
the first 30-second checkpoint. -/
theorem pollForCompletion_cancellation_witness :
    (pollForCompletion envSuperseded).1
        = { manifestFound := false, cancelled := true }
    ∧ runCleanupClosure envSuperseded true
        = (Except.ok (),
           [SAction.flushFinal, SAction.serverClose, SAction.killProcs,
            SAction.destroySandbox])
    ∧ SAction.uploadCommentWork ∉ (runCleanupClosure envSuperseded true).2
    ∧ (∀ s, SAction.setStatus s ∉ (runCleanupClosure envSuperseded true).2)
    ∧ SAction.destroySandbox ∈ (runCleanupClosure envSuperseded true).2
    ∧ (∀ e₂ : PollEnv, ∀ q ∈ (pollForCompletion e₂).2,
        q.1 % 10 = 0 ∧ q.2 = e₂.isActive q.1) :=
  pollForCompletion_cancellation envSuperseded true 10
    (by decide) (by decide) (by decide)
    (by simp [envSuperseded])
    (by
      intro m hm1 hm2
      refine ⟨?_, rfl, rfl⟩
      simp [envSuperseded]
      omega)

-- ─── Log sanitizer (sandbox.ts:258-268, cleanup.ts:32-36) ───────────────────

/-- The characters the JS regex class `\s` matches, restricted to ASCII
(the class also matches Unicode spaces, which never occur in these
logs). -/
def jsSpace (c : Char) : Bool :=
  c == ' ' || c == '\t' || c == '\n' || c == '\r'
    || c == '\x0b' || c == '\x0c'

/-- One character of the regex class `[^\s@]`. -/
def tokenChar (c : Char) : Bool :=
  !(jsSpace c) && !(c == '@')

/-- The literal part of the pattern `x-access-token:[^\s@]+`. -/
def litS : List Char := "x-access-token:".toList

/-- The replacement text `x-access-token:***`. -/
def stars : List Char := "x-access-token:***".toList

/-- `[^\s@]+` requires at least one token character after the literal. -/
def nextTok : List Char → Bool
  | [] => false
  | c :: _ => tokenChar c

theorem length_dropWhile_le {α : Type} (p : α → Bool) (l : List α) :
    (l.dropWhile p).length ≤ l.length := by
  induction l with
  | nil => simp [List.dropWhile]
  | cons a t ih =>
      rw [List.dropWhile_cons]
      split
      · exact Nat.le_succ_of_le ih
      · simp

/-- `msg.replace(/x-access-token:[^\s@]+/g, "x-access-token:***")`: scan
left to right; wherever the literal matches with at least one token
character after it, emit the replacement and resume after the greedy
maximal run of token characters; otherwise keep the character and move
on. -/
def sanitize : List Char → List Char
  | [] => []
  | c :: cs =>
      if litS.isPrefixOf (c :: cs)
          && nextTok (List.drop litS.length (c :: cs)) then
        stars ++ sanitize (List.dropWhile tokenChar
          (List.drop litS.length (c :: cs)))
      else
        c :: sanitize cs
termination_by s => s.length
decreasing_by
  · refine Nat.lt_of_le_of_lt (length_dropWhile_le _ _) ?_
    rw [List.length_drop]
    have h15 : litS.length = 15 := rfl
    rw [h15]
    simp only [List.length_cons]
    omega
  · simp

/-- `.replace(/'/g, "'\\''")` — the shell-quoting escape the log helper
applies after sanitizing (sandbox.ts:266). -/
def escapeQuotes : List Char → List Char
  | [] => []
  | c :: cs =>
      if c == '\'' then '\'' :: '\\' :: '\'' :: '\'' :: escapeQuotes cs
      else c :: escapeQuotes cs

/-- The line the `log` helper appends to `/workspace/agent.log`
(sandbox.ts:262-268): ISO timestamp, space, then the sanitized and
shell-escaped message. -/
def logLine (ts msg : List Char) : List Char :=
  ts ++ ' ' :: escapeQuotes (sanitize msg)

/-- A wellformed secret token: nonempty, all token characters (no
whitespace, no `@`) — true of GitHub installation tokens. -/
abbrev goodTok (t : List Char) : Prop :=
  t ≠ [] ∧ ∀ c ∈ t, tokenChar c = true

/-- The text following the token stops the greedy run: either the end of
the message or a non-token character (in the clone URL the token is
followed by `@github.com/...`). -/
abbrev stopper (v : List Char) : Prop :=
  nextTok v = false

theorem sanitize_cons_match (c : Char) (cs : List Char)
    (h : (litS.isPrefixOf (c :: cs)
        && nextTok (List.drop litS.length (c :: cs))) = true) :
    sanitize (c :: cs)
      = stars ++ sanitize (List.dropWhile tokenChar
          (List.drop litS.length (c :: cs))) := by
  rw [sanitize]
  simp [h]

theorem sanitize_cons_nomatch (c : Char) (cs : List Char)
    (h : (litS.isPrefixOf (c :: cs)
        && nextTok (List.drop litS.length (c :: cs))) = false) :
    sanitize (c :: cs) = c :: sanitize cs := by
  rw [sanitize]
  simp [h]

theorem sanitize_eq_match (s : List Char)
    (h : (litS.isPrefixOf s && nextTok (List.drop litS.length s)) = true) :
    sanitize s
      = stars ++ sanitize (List.dropWhile tokenChar
          (List.drop litS.length s)) := by
  cases s with
  | nil => exact absurd h (by decide)
  | cons c cs => exact sanitize_cons_match c cs h

theorem litS_all_tokenChar : ∀ c ∈ litS, tokenChar c = true := by decide

theorem dropWhile_stopper (v : List Char) (hv : stopper v) :
    List.dropWhile tokenChar v = v := by
  cases v with
  | nil => rfl
  | cons c cs =>
      have hc : tokenChar c = false := hv
      rw [List.dropWhile_cons, if_neg (by rw [hc]; simp)]

theorem dropWhile_allTok (t v : List Char)
    (ht : ∀ c ∈ t, tokenChar c = true) :
    List.dropWhile tokenChar (t ++ v) = List.dropWhile tokenChar v := by
  induction t with
  | nil => rfl
  | cons a as ih =>
      rw [List.cons_append, List.dropWhile_cons,
        if_pos (ht a (by simp))]
      exact ih (fun c hc => ht c (by simp [hc]))

theorem isPrefixOf_append_self (p z : List Char) :
    p.isPrefixOf (p ++ z) = true := by
  rw [List.isPrefixOf_iff_prefix]
  exact List.prefix_append p z

theorem isPrefixOf_append_left (p w z : List Char)
    (h : p.length ≤ w.length) :
    p.isPrefixOf (w ++ z) = p.isPrefixOf w := by
  induction p generalizing w with
  | nil => simp [List.isPrefixOf]
  | cons a as ih =>
      cases w with
      | nil => simp at h
      | cons b bs =>
          simp only [List.cons_append, List.isPrefixOf]
          show (a == b && as.isPrefixOf (bs ++ z))
              = (a == b && as.isPrefixOf bs)
          rw [ih bs (by simpa using h)]

theorem drop_append_le (n : Nat) (w z : List Char) (h : n ≤ w.length) :
    List.drop n (w ++ z) = List.drop n w ++ z := by
  induction w generalizing n with
  | nil =>
      simp at h
      subst h
      simp
  | cons b bs ih =>
      cases n with
      | zero => simp
      | succ n =>
          simp only [List.cons_append, List.drop_succ_cons]
          exact ih n (by simpa using h)

theorem nextTok_append (d z : List Char) (hd : d ≠ []) :
    nextTok (d ++ z) = nextTok d := by
  cases d with
  | nil => exact absurd rfl hd
  | cons c cs => rfl

theorem sanitize_lit (t v : List Char) (ht : goodTok t) (hv : stopper v) :
    sanitize (litS ++ (t ++ v)) = stars ++ sanitize v := by
  obtain ⟨htne, htc⟩ := ht
  have hcond : (litS.isPrefixOf (litS ++ (t ++ v))
      && nextTok (List.drop litS.length (litS ++ (t ++ v)))) = true := by
    rw [isPrefixOf_append_self, List.drop_left]
    cases t with
    | nil => exact absurd rfl htne
    | cons a as =>
        simp only [List.cons_append, nextTok, Bool.true_and]
        exact htc a (by simp)
  rw [sanitize_eq_match _ hcond, List.drop_left, dropWhile_allTok t v htc,
    dropWhile_stopper v hv]

theorem sanitize_token_indep_aux :
    ∀ (N : Nat) (u v t₁ t₂ : List Char), u.length ≤ N →
      goodTok t₁ → goodTok t₂ → stopper v →
      sanitize ((u ++ litS) ++ (t₁ ++ v))
        = sanitize ((u ++ litS) ++ (t₂ ++ v)) := by
  intro N
  induction N with
  | zero =>
      intro u v t₁ t₂ hlen h₁ h₂ hv
      have hu : u = [] := List.length_eq_zero.mp (Nat.le_zero.mp hlen)
      subst hu
      simp only [List.nil_append]
      rw [sanitize_lit t₁ v h₁ hv, sanitize_lit t₂ v h₂ hv]
  | succ N ih =>
      intro u v t₁ t₂ hlen h₁ h₂ hv
      cases u with
      | nil =>
          simp only [List.nil_append]
          rw [sanitize_lit t₁ v h₁ hv, sanitize_lit t₂ v h₂ hv]
      | cons c u₁ =>
          have hlit15 : litS.length = 15 := rfl
          have hwlen : litS.length ≤ ((c :: u₁) ++ litS).length := by
            simp only [List.length_append]
            omega
          have hdne : List.drop litS.length ((c :: u₁) ++ litS) ≠ [] := by
            have hpos : 0 < (List.drop litS.length
                ((c :: u₁) ++ litS)).length := by
              rw [List.length_drop]
              simp only [List.length_append, List.length_cons, hlit15]
              omega
            exact List.length_pos.mp hpos
          have hcond : ∀ (t : List Char),
              (litS.isPrefixOf (((c :: u₁) ++ litS) ++ (t ++ v))
                && nextTok (List.drop litS.length
                    (((c :: u₁) ++ litS) ++ (t ++ v))))
              = (litS.isPrefixOf ((c :: u₁) ++ litS)
                && nextTok (List.drop litS.length ((c :: u₁) ++ litS)))
              := by
            intro t
            rw [isPrefixOf_append_left litS ((c :: u₁) ++ litS) (t ++ v)
                (by rw [hlit15]; exact hwlen)]
            rw [drop_append_le litS.length ((c :: u₁) ++ litS) (t ++ v)
                hwlen]
            rw [nextTok_append _ _ hdne]
          by_cases hQ : (litS.isPrefixOf ((c :: u₁) ++ litS)
              && nextTok (List.drop litS.length ((c :: u₁) ++ litS)))
              = true
          · have hrw : ∀ (t : List Char),
                sanitize (((c :: u₁) ++ litS) ++ (t ++ v))
                  = stars ++ sanitize (List.dropWhile tokenChar
                      (List.drop litS.length ((c :: u₁) ++ litS)
                        ++ (t ++ v))) := by
              intro t
              rw [sanitize_eq_match _ (by rw [hcond t]; exact hQ)]
              rw [drop_append_le litS.length ((c :: u₁) ++ litS) (t ++ v)
                  hwlen]
            have hsplit : ∀ (t : List Char),
                List.dropWhile tokenChar
                    (List.drop litS.length ((c :: u₁) ++ litS) ++ (t ++ v))
                  = if (List.dropWhile tokenChar
                        (List.drop litS.length ((c :: u₁) ++ litS))).isEmpty
                        = true then
                      List.dropWhile tokenChar (t ++ v)
                    else
                      List.dropWhile tokenChar
                        (List.drop litS.length ((c :: u₁) ++ litS))
                        ++ (t ++ v) :=
              fun t => List.dropWhile_append
            rw [hrw t₁, hrw t₂, hsplit t₁, hsplit t₂]
            by_cases hd : (List.dropWhile tokenChar
                (List.drop litS.length ((c :: u₁) ++ litS))).isEmpty = true
            · rw [if_pos hd, if_pos hd]
              obtain ⟨hne₁, htc₁⟩ := h₁
              obtain ⟨hne₂, htc₂⟩ := h₂
              rw [dropWhile_allTok t₁ v htc₁, dropWhile_allTok t₂ v htc₂]
            · rw [if_neg hd, if_neg hd]
              by_cases hm : litS.length ≤ (c :: u₁).length
              · have hdrop : List.drop litS.length ((c :: u₁) ++ litS)
                    = List.drop litS.length (c :: u₁) ++ litS :=
                  drop_append_le litS.length (c :: u₁) litS hm
                rw [hdrop] at hd ⊢
                rw [List.dropWhile_append] at hd ⊢
                by_cases hd0 : (List.dropWhile tokenChar
                    (List.drop litS.length (c :: u₁))).isEmpty = true
                · exfalso
                  apply hd
                  rw [if_pos hd0]
                  have hnil : List.dropWhile tokenChar litS = [] :=
                    List.dropWhile_eq_nil_iff.mpr litS_all_tokenChar
                  rw [hnil]
                  rfl
                · rw [if_neg hd0]
                  have hlen' : (List.dropWhile tokenChar
                      (List.drop litS.length (c :: u₁))).length ≤ N := by
                    have ha := length_dropWhile_le tokenChar
                      (List.drop litS.length (c :: u₁))
                    have hb := List.length_drop litS.length (c :: u₁)
                    have hc : (c :: u₁).length = u₁.length + 1 := rfl
                    have hdl : (c :: u₁).length ≤ N + 1 := hlen
                    omega
                  exact congrArg (fun l => stars ++ l)
                    (ih (List.dropWhile tokenChar
                        (List.drop litS.length (c :: u₁))) v t₁ t₂
                      hlen' h₁ h₂ hv)
              · exfalso
                apply hd
                have hsub : ∀ x ∈ List.drop litS.length
                    ((c :: u₁) ++ litS), tokenChar x = true := by
                  intro x hx
                  have hnum : litS.length
                      = (c :: u₁).length
                        + (litS.length - (c :: u₁).length) := by omega
                  rw [hnum, List.drop_append] at hx
                  exact litS_all_tokenChar x (List.mem_of_mem_drop hx)
                have hnil : List.dropWhile tokenChar
                    (List.drop litS.length ((c :: u₁) ++ litS)) = [] :=
                  List.dropWhile_eq_nil_iff.mpr hsub
                rw [hnil]
                rfl
          · have hQf : (litS.isPrefixOf ((c :: u₁) ++ litS)
                && nextTok (List.drop litS.length ((c :: u₁) ++ litS)))
                = false := by
              revert hQ
              cases (litS.isPrefixOf ((c :: u₁) ++ litS)
                && nextTok (List.drop litS.length ((c :: u₁) ++ litS)))
              · intro _; rfl
              · intro hQ; exact absurd rfl hQ
            have hrw : ∀ (t : List Char),
                sanitize (((c :: u₁) ++ litS) ++ (t ++ v))
                  = c :: sanitize ((u₁ ++ litS) ++ (t ++ v)) := by
              intro t
              have hshape : ((c :: u₁) ++ litS) ++ (t ++ v)
                  = c :: ((u₁ ++ litS) ++ (t ++ v)) := by
                simp [List.cons_append, List.append_assoc]
              rw [hshape]
              apply sanitize_cons_nomatch
              have hc := hcond t
              rw [hshape] at hc
              rw [hc]
              exact hQf
            rw [hrw t₁, hrw t₂]
            have hlen' : u₁.length ≤ N := by
              have hdl : (c :: u₁).length ≤ N + 1 := hlen
              simp only [List.length_cons] at hdl
              omega
            exact congrArg (fun l => c :: l)
              (ih u₁ v t₁ t₂ hlen' h₁ h₂ hv)

theorem sanitize_token_indep (u v t₁ t₂ : List Char)
    (h₁ : goodTok t₁) (h₂ : goodTok t₂) (hv : stopper v) :
    sanitize (u ++ litS ++ t₁ ++ v) = sanitize (u ++ litS ++ t₂ ++ v) := by
  have := sanitize_token_indep_aux u.length u v t₁ t₂ le_rfl h₁ h₂ hv
  simpa [List.append_assoc] using this

-- ─── Claim C10: token sanitization is a noninterference property ────────────

/-- C10. Every message written to the agent log through the `log` helper is
first sanitized (every `x-access-token:<run of non-whitespace, non-@
characters>` is replaced by `x-access-token:***`), so for messages that
embed the installation token the standard way — somewhere after the
literal `x-access-token:` with a non-token character (such as the `@` of
the clone URL) or the end of the message right after it — the produced log
line is identical for any two tokens: the log output does not depend on
the token. Consequently the token appears in the sanitized output only if
it already appears in the token-independent output (last conjunct, with
`"a"` as the dummy token), i.e. sanitization leaks nothing about the
token. -/
theorem log_sanitizes_tokens (ts u v t₁ t₂ : List Char)
    (h₁ : goodTok t₁) (h₂ : goodTok t₂) (hv : stopper v) :
    logLine ts (u ++ litS ++ t₁ ++ v) = logLine ts (u ++ litS ++ t₂ ++ v)
    ∧ sanitize (u ++ litS ++ t₁ ++ v) = sanitize (u ++ litS ++ t₂ ++ v)
    ∧ (List.IsInfix t₁ (sanitize (u ++ litS ++ t₁ ++ v)) →
        List.IsInfix t₁ (sanitize (u ++ litS ++ [Char.ofNat 97] ++ v)))
    := by
  have hs := sanitize_token_indep u v t₁ t₂ h₁ h₂ hv
  have hdummy : goodTok [Char.ofNat 97] := by
    constructor
    · simp
    · decide
  have ha := sanitize_token_indep u v t₁ [Char.ofNat 97] h₁ hdummy hv
  refine ⟨?_, hs, ?_⟩
  · unfold logLine
    rw [hs]
  · intro hinf
    rw [← ha]
    exact hinf

/-- Witness for C10: a git error line embedding two different installation
tokens sanitizes to the same log line. -/
theorem log_sanitizes_tokens_witness :
    logLine ("2025-01-01T00:00:00.000Z".toList)
        ("fatal: unable to access https://".toList ++ litS
          ++ "ghs_SecretTokenAAAA".toList
          ++ "@github.com/acme/widget.git".toList)
      = logLine ("2025-01-01T00:00:00.000Z".toList)
        ("fatal: unable to access https://".toList ++ litS
          ++ "ghs_OtherToken99999".toList
          ++ "@github.com/acme/widget.git".toList)
    ∧ sanitize ("fatal: unable to access https://".toList ++ litS
          ++ "ghs_SecretTokenAAAA".toList
          ++ "@github.com/acme/widget.git".toList)
      = sanitize ("fatal: unable to access https://".toList ++ litS
          ++ "ghs_OtherToken99999".toList
          ++ "@github.com/acme/widget.git".toList)
    ∧ (List.IsInfix ("ghs_SecretTokenAAAA".toList)
        (sanitize ("fatal: unable to access https://".toList ++ litS
          ++ "ghs_SecretTokenAAAA".toList
          ++ "@github.com/acme/widget.git".toList)) →
       List.IsInfix ("ghs_SecretTokenAAAA".toList)
        (sanitize ("fatal: unable to access https://".toList ++ litS
          ++ [Char.ofNat 97]
          ++ "@github.com/acme/widget.git".toList))) :=
  log_sanitizes_tokens ("2025-01-01T00:00:00.000Z".toList)
    ("fatal: unable to access https://".toList)
    ("@github.com/acme/widget.git".toList)
    ("ghs_SecretTokenAAAA".toList)
    ("ghs_OtherToken99999".toList)
    (by constructor
        · simp
        · decide)
    (by constructor
        · simp
        · decide)
    (by decide)

/-- Witness for C1 at Scenario A: two registrations for acme/widget#42 from
an empty table. -/
theorem registerRun_supersession_invariant_witness :
    SeqOK (fun _ => false) ⟨"acme", "widget", 42⟩ []
      [⟨"run1", "sha1"⟩, ⟨"run2", "sha2"⟩]
    ∧ (∀ o₂ : DestroyOracle, ∀ db₀ id sha,
        registerRun (fun _ => false) db₀ ⟨"acme", "widget", 42⟩ id sha
          = registerRun o₂ db₀ ⟨"acme", "widget", 42⟩ id sha) :=
  registerRun_supersession_invariant (fun _ => false) ⟨"acme", "widget", 42⟩
    [] [⟨"run1", "sha1"⟩, ⟨"run2", "sha2"⟩]
    (by intro rq _ row hrow; simp at hrow)
    (by decide)
    (by decide)

end VisualDiff
